import Mathlib

/-!
Verification of the CAAE training-orchestration module (`model.py`).

The Python code is shallowly embedded: filenames are lists of characters,
`str.split` / `int(...)` / list comprehensions become Lean functions, the
numpy RNG is abstracted as an explicit index-picking function, `np.random.shuffle`
as an explicit permutation-producing function, and fallible Python code
(attribute lookups, `np.random.choice` over an empty population) returns
`Option`/`Except`.
-/

namespace CAAE

/-! ## Python string model -/

/-- Model of Python `s.split(sep)` on a string viewed as a list of characters:
splitting the empty string yields `[""]`, and each separator occurrence starts
a new (possibly empty) segment. -/
def pySplit (sep : Char) : List Char → List (List Char)
  | [] => [[]]
  | c :: rest =>
    match pySplit sep rest with
    | [] => [[]]
    | hd :: tl => if c = sep then [] :: hd :: tl else (c :: hd) :: tl

theorem pySplit_ne_nil (sep : Char) (s : List Char) : pySplit sep s ≠ [] := by
  cases s with
  | nil => simp [pySplit]
  | cons c rest =>
    simp only [pySplit]
    cases pySplit sep rest with
    | nil => simp
    | cons hd tl =>
      by_cases h : c = sep <;> simp [h]

/-- Splitting a separator-free string returns the string as its only segment. -/
theorem pySplit_of_no_sep (sep : Char) (a : List Char) (h : ∀ c ∈ a, c ≠ sep) :
    pySplit sep a = [a] := by
  induction a with
  | nil => rfl
  | cons c rest ih =>
    have hc : c ≠ sep := h c (List.mem_cons_self c rest)
    have hrest : pySplit sep rest = [rest] := ih (fun d hd => h d (List.mem_cons_of_mem c hd))
    simp [pySplit, hrest, hc]

/-- Splitting past a separator-free prefix followed by a separator peels off the
prefix as the first segment. -/
theorem pySplit_append_sep (sep : Char) (a b : List Char) (h : ∀ c ∈ a, c ≠ sep) :
    pySplit sep (a ++ sep :: b) = a :: pySplit sep b := by
  induction a with
  | nil =>
    simp only [List.nil_append, pySplit]
    cases hb : pySplit sep b with
    | nil => exact absurd hb (pySplit_ne_nil sep b)
    | cons hd tl => simp
  | cons c rest ih =>
    have hc : c ≠ sep := h c (List.mem_cons_self c rest)
    have hrest := ih (fun d hd => h d (List.mem_cons_of_mem c hd))
    have hstep : (c :: rest) ++ sep :: b = c :: (rest ++ sep :: b) := rfl
    rw [hstep]
    unfold pySplit
    rw [hrest]
    simp only [if_neg hc]
    cases b <;> rfl

/-! ## Python integer parsing and printing -/

/-- Character is an ASCII decimal digit. -/
def isDigitChar (c : Char) : Bool := 48 ≤ c.toNat && c.toNat ≤ 57

/-- Numeric value of an ASCII digit character. -/
def digitVal (c : Char) : Nat := c.toNat - 48

/-- ASCII character of a decimal digit. -/
def digitChar (d : Nat) : Char :=
  match d with
  | 0 => '0' | 1 => '1' | 2 => '2' | 3 => '3' | 4 => '4'
  | 5 => '5' | 6 => '6' | 7 => '7' | 8 => '8' | _ => '9'

/-- Model of Python `int(s)` restricted to an optional leading minus sign
followed by decimal digits; any other shape raises `ValueError`, modelled
as `none`. -/
def parseNatChars (s : List Char) : Option Nat :=
  if s = [] then none
  else if s.all isDigitChar then
    some (s.foldl (fun acc c => 10 * acc + digitVal c) 0)
  else none

/-- Model of Python `int(s)` for signed decimal strings. -/
def parseIntChars (s : List Char) : Option Int :=
  match s with
  | [] => none
  | c :: rest =>
    if c = '-' then Option.map (fun n : Nat => -(n : Int)) (parseNatChars rest)
    else Option.map (fun n : Nat => (n : Int)) (parseNatChars (c :: rest))

/-- Model of Python `str(n)` for a natural number. -/
def natToChars (n : Nat) : List Char :=
  if n = 0 then ['0'] else ((Nat.digits 10 n).reverse).map digitChar

/-- Model of Python `str(v)` for an integer (minus sign included). -/
def intToChars (v : Int) : List Char :=
  if v < 0 then '-' :: natToChars v.natAbs else natToChars v.natAbs

theorem digitChar_lt_ten (d : Nat) (h : d < 10) :
    isDigitChar (digitChar d) = true ∧ digitVal (digitChar d) = d ∧ digitChar d ≠ 's' := by
  interval_cases d <;> exact ⟨rfl, rfl, by decide⟩

theorem natToChars_digits (n : Nat) : ∀ c ∈ natToChars n, isDigitChar c = true := by
  intro c hc
  unfold natToChars at hc
  by_cases h : n = 0
  · simp [h] at hc; subst hc; rfl
  · simp only [h, if_false, List.mem_map, List.mem_reverse] at hc
    obtain ⟨d, hd, rfl⟩ := hc
    exact (digitChar_lt_ten d (Nat.digits_lt_base (by norm_num) hd)).1

theorem natToChars_no_s (n : Nat) : ∀ c ∈ natToChars n, c ≠ 's' := by
  intro c hc
  have := natToChars_digits n c hc
  intro h; subst h; simp [isDigitChar] at this

theorem intToChars_no_s (v : Int) : ∀ c ∈ intToChars v, c ≠ 's' := by
  intro c hc
  unfold intToChars at hc
  by_cases h : v < 0
  · simp only [h, if_true, List.mem_cons] at hc
    rcases hc with rfl | hc
    · decide
    · exact natToChars_no_s _ c hc
  · simp only [h, if_false] at hc
    exact natToChars_no_s _ c hc

theorem foldl_digits (l : List Nat) (h : ∀ d ∈ l, d < 10) :
    ((l.reverse.map digitChar).foldl (fun acc c => 10 * acc + digitVal c) 0)
      = Nat.ofDigits 10 l := by
  induction l with
  | nil => simp [Nat.ofDigits]
  | cons d rest ih =>
    have hd : d < 10 := h d (List.mem_cons_self d rest)
    have hrest := ih (fun e he => h e (List.mem_cons_of_mem d he))
    simp only [List.reverse_cons, List.map_append, List.foldl_append, hrest,
      List.map_cons, List.map_nil, List.foldl_cons, List.foldl_nil,
      (digitChar_lt_ten d hd).2.1, Nat.ofDigits_cons]
    ring

/-- Printing then parsing a natural number is the identity. -/
theorem parseNatChars_natToChars (n : Nat) : parseNatChars (natToChars n) = some n := by
  by_cases h : n = 0
  · subst h; rfl
  · have hne : natToChars n ≠ [] := by
      unfold natToChars
      simp only [h, if_false]
      intro hcon
      rw [List.map_eq_nil_iff, List.reverse_eq_nil_iff] at hcon
      exact h (Nat.digits_eq_nil_iff_eq_zero.mp hcon)
    have hall : (natToChars n).all isDigitChar = true :=
      List.all_eq_true.mpr (fun c hc => natToChars_digits n c hc)
    unfold parseNatChars
    rw [if_neg hne, if_pos hall]
    unfold natToChars
    rw [if_neg h, foldl_digits _ (fun d hd => Nat.digits_lt_base (by norm_num) hd),
      Nat.ofDigits_digits]

/-- Printing then parsing an integer is the identity. -/
theorem parseIntChars_intToChars (v : Int) : parseIntChars (intToChars v) = some v := by
  by_cases h : v < 0
  · unfold intToChars
    rw [if_pos h]
    have hif : parseIntChars ('-' :: natToChars v.natAbs)
        = Option.map (fun n : Nat => -(n : Int)) (parseNatChars (natToChars v.natAbs)) := by
      simp [parseIntChars]
    rw [hif, parseNatChars_natToChars, Option.map_some']
    congr 1
    show -(v.natAbs : Int) = v
    omega
  · unfold intToChars
    rw [if_neg h]
    have h0 : natToChars v.natAbs ≠ [] ∧ (natToChars v.natAbs).headD ' ' ≠ '-' := by
      constructor
      · unfold natToChars
        by_cases hz : v.natAbs = 0
        · simp [hz]
        · simp only [hz, if_false]
          intro hcon
          rw [List.map_eq_nil_iff, List.reverse_eq_nil_iff] at hcon
          exact hz (Nat.digits_eq_nil_iff_eq_zero.mp hcon)
      · intro hcon
        have hmem : (natToChars v.natAbs).headD ' ' ∈ natToChars v.natAbs := by
          cases hh : natToChars v.natAbs with
          | nil =>
            exfalso
            unfold natToChars at hh
            by_cases hz : v.natAbs = 0
            · simp [hz] at hh
            · simp only [hz, if_false] at hh
              rw [List.map_eq_nil_iff, List.reverse_eq_nil_iff] at hh
              exact hz (Nat.digits_eq_nil_iff_eq_zero.mp hh)
          | cons a l => simp [hh]
        have := natToChars_digits v.natAbs _ hmem
        rw [hcon] at this
        simp [isDigitChar] at this
    cases hh : natToChars v.natAbs with
    | nil => exact absurd hh h0.1
    | cons a l =>
      have ha : a ≠ '-' := by
        have := h0.2; rw [hh] at this; simpa using this
      have hp : parseNatChars (a :: l) = some v.natAbs := by
        rw [← hh]; exact parseNatChars_natToChars v.natAbs
      have hif : parseIntChars (a :: l)
          = Option.map (fun n : Nat => (n : Int)) (parseNatChars (a :: l)) := by
        simp [parseIntChars, ha]
      rw [hif, hp, Option.map_some']
      congr 1
      show (v.natAbs : Int) = v
      omega

/-! ## Filename fields (`model.py` label parsing) -/

/-- Field `i` of a filename as a Python integer: `int(x.split('s')[i])`. -/
def fieldInt (x : List Char) (i : Nat) : Option Int :=
  ((pySplit 's' x)[i]?).bind parseIntChars

/-- Filename built by the repository's encoding (spec section 6): identity,
stratum index, valence*1000, arousal*1000, `'s'`-delimited, `.png` extension. -/
def mkFilename (ident : List Char) (r : Nat) (v1000 a1000 : Int) : List Char :=
  ident ++ 's' :: (natToChars r ++ 's' ::
    (intToChars v1000 ++ 's' :: (intToChars a1000 ++ ['.', 'p', 'n', 'g'])))

/-- Valence label decoding (`model.py` line 306): `int(x.split('s')[2]) / 1000`,
with Python 3 true division modelled over `ℚ`. -/
def decodeValence (x : List Char) : Option ℚ :=
  Option.map (fun n : Int => (n : ℚ) / 1000) (fieldInt x 2)

/-- Arousal label decoding (`model.py` line 307): `int(x.split('s')[3][:-4]) / 1000`;
the slice `[:-4]` drops the 4-character extension. -/
def decodeArousal (x : List Char) : Option ℚ :=
  ((pySplit 's' x)[3]?).bind (fun seg =>
    Option.map (fun n : Int => (n : ℚ) / 1000) (parseIntChars (seg.take (seg.length - 4))))

theorem pySplit_mkFilename (ident : List Char) (r : Nat) (v1000 a1000 : Int)
    (h : ∀ c ∈ ident, c ≠ 's') :
    pySplit 's' (mkFilename ident r v1000 a1000)
      = [ident, natToChars r, intToChars v1000, intToChars a1000 ++ ['.', 'p', 'n', 'g']] := by
  unfold mkFilename
  rw [pySplit_append_sep 's' ident _ h,
    pySplit_append_sep 's' (natToChars r) _ (natToChars_no_s r),
    pySplit_append_sep 's' (intToChars v1000) _ (intToChars_no_s v1000),
    pySplit_of_no_sep 's' _ ?_]
  intro c hc
  rcases List.mem_append.mp hc with h1 | h2
  · exact intToChars_no_s a1000 c h1
  · fin_cases h2 <;> decide

/-- C7: label decoding is a left-inverse of label encoding — parsing a filename
built from `(stratum, valence*1000, arousal*1000)` in the `'s'`-delimited encoding
recovers the valence `v1000/1000` and the arousal `a1000/1000` exactly (hence to
three-decimal precision), for any identity prefix not containing `'s'`. -/
theorem label_roundtrip (ident : List Char) (r : Nat) (v1000 a1000 : Int)
    (h : ∀ c ∈ ident, c ≠ 's') :
    decodeValence (mkFilename ident r v1000 a1000) = some ((v1000 : ℚ) / 1000) ∧
    decodeArousal (mkFilename ident r v1000 a1000) = some ((a1000 : ℚ) / 1000) := by
  have hsplit := pySplit_mkFilename ident r v1000 a1000 h
  constructor
  · unfold decodeValence fieldInt
    rw [hsplit]
    simp only [List.getElem?_cons_succ, List.getElem?_cons_zero, Option.some_bind,
      parseIntChars_intToChars, Option.map_some']
  · unfold decodeArousal
    rw [hsplit]
    simp only [List.getElem?_cons_succ, List.getElem?_cons_zero, Option.some_bind]
    rw [List.length_append, show (['.', 'p', 'n', 'g'] : List Char).length = 4 from rfl,
      Nat.add_sub_cancel, List.take_left, parseIntChars_intToChars, Option.map_some']

/-- Witness for C7 at a concrete filename `fs3s-750s250.png`. -/
theorem label_roundtrip_witness :
    (∀ c ∈ ['f'], c ≠ 's') ∧
    (decodeValence (mkFilename ['f'] 3 (-750) 250) = some ((-750 : ℚ) / 1000) ∧
     decodeArousal (mkFilename ['f'] 3 (-750) 250) = some ((250 : ℚ) / 1000)) :=
  ⟨by decide, label_roundtrip ['f'] 3 (-750) 250 (by decide)⟩

/-! ## Conditional sweep (`Model.test`, lines 445-457) -/

/-- Model of `np.arange(start, stop, step)`: numpy computes the length as
`⌈(stop - start) / step⌉` and fills `start + i*step`. The source's float
arithmetic is exact here because 0.75 and 0.25 are dyadic. -/
def npArange (start stop step : ℚ) : List ℚ :=
  (List.range (Int.toNat ⌈(stop - start) / step⌉)).map (fun i : Nat => start + (i : ℚ) * step)

/-- The seven sweep values `np.arange(0.75, -0.751, -0.25)`. -/
def sweepValues : List ℚ := npArange 0.75 (-0.751) (-0.25)

/-- Valence column of the sweep: `np.repeat(valence, 7)` then reshape to (49,1). -/
def sweepValence : List ℚ := sweepValues.flatMap (fun v => List.replicate 7 v)

/-- Arousal column of the sweep: `np.repeat([arousal], 7, axis=0)` flattened. -/
def sweepArousal : List ℚ := (List.range 7).flatMap (fun _ => sweepValues)

/-- The 49 (valence, arousal) pairs fed to the generator, row `i` of the two
(49,1) label arrays. -/
def sweepPairs : List (ℚ × ℚ) := sweepValence.zip sweepArousal

theorem sweepValues_eq :
    sweepValues = [0.75, 0.5, 0.25, 0, -0.25, -0.5, -0.75] := by
  unfold sweepValues npArange
  have hceil : (⌈(((-0.751 : ℚ)) - 0.75) / (-0.25)⌉ : ℤ) = 7 := by
    rw [Int.ceil_eq_iff]
    constructor <;> norm_num
  rw [hceil, show (Int.toNat 7) = 7 from rfl,
    show List.range 7 = [0, 1, 2, 3, 4, 5, 6] from rfl]
  simp only [List.map_cons, List.map_nil, List.cons.injEq, and_true]
  norm_num

/-- C4: the conditional sweep produces exactly 49 pairs; the sweep values run
linearly from 0.75 down to -0.75 in steps of 0.25; the pairs form the 7×7
row-major grid with valence as the outer index; pair 0 is (0.75, 0.75) and
pair 48 is (-0.75, -0.75). -/
theorem sweep_grid :
    sweepPairs.length = 49 ∧
    sweepValues = [0.75, 0.5, 0.25, 0, -0.25, -0.5, -0.75] ∧
    sweepPairs = sweepValues.flatMap (fun v => sweepValues.map (fun a => (v, a))) ∧
    sweepPairs[0]? = some ((0.75 : ℚ), (0.75 : ℚ)) ∧
    sweepPairs[48]? = some ((-0.75 : ℚ), (-0.75 : ℚ)) := by
  have hp : sweepPairs
      = sweepValues.flatMap (fun v => sweepValues.map (fun a => (v, a))) := by
    unfold sweepPairs sweepValence sweepArousal
    rw [sweepValues_eq]
    rfl
  refine ⟨?_, sweepValues_eq, hp, ?_, ?_⟩ <;> rw [hp, sweepValues_eq] <;> rfl

/-! ## Data balancing (`Model.fill_up_equally`, lines 477-493) -/

/-- Failure kind of `fill_up_equally`: `np.random.choice` raises when asked to
draw from an empty population (an empty stratum with a positive deficit). -/
inductive FillErr where
  | EmptyStratum
deriving DecidableEq

/-- Stratum field of a filename: `int(x.split('s')[1])`. -/
def stratumField (x : List Char) : Option Int := fieldInt x 1

/-- Membership test of stratum `r` used by the `sorted_samples` comprehension. -/
def inStratum (r : Int) (x : List Char) : Bool := stratumField x == some r

/-- One stratum (line 478): the files of `X` whose stratum field equals `r`. -/
def stratum (X : List (List Char)) (r : Int) : List (List Char) :=
  X.filter (inStratum r)

/-- `sorted_samples` (line 478): the 8 strata in order `r = 0..7`. -/
def bucketsOf (X : List (List Char)) : List (List (List Char)) :=
  (List.range 8).map (fun r : Nat => stratum X (r : Int))

/-- `max(amounts)` (lines 480-481): the largest stratum size. -/
def maxAmount (X : List (List Char)) : Nat :=
  ((bucketsOf X).map List.length).foldr max 0

/-- Padding of one stratum (lines 484-486): `np.random.choice(range(len(samples)), d)`
draws `d` indices from the population, modelled by `pick` reduced modulo the
population size; with an empty population and `d > 0` it raises. -/
def padStratum (pick : Nat → Nat) (samples : List (List Char)) (d : Nat) :
    Except FillErr (List (List Char)) :=
  if d = 0 then .ok samples
  else if samples.length = 0 then .error .EmptyStratum
  else .ok (samples ++ (List.range d).map (fun j => samples.getD (pick j % samples.length) []))

/-- The `for i, d in enumerate(differences)` loop (lines 483-486) from stratum
index `i` on: each stratum is padded with its deficit against `M`. -/
def padAllFrom (pick : Nat → Nat → Nat) (M : Nat) :
    Nat → List (List (List Char)) → Except FillErr (List (List (List Char)))
  | _, [] => .ok []
  | i, b :: bs =>
    match padStratum (pick i) b (M - b.length), padAllFrom pick M (i + 1) bs with
    | .error e, _ => .error e
    | .ok _, .error e => .error e
    | .ok p, .ok ps => .ok (p :: ps)

/-- `Model.fill_up_equally` (lines 477-493): partition into 8 strata, pad each
stratum up to the maximum size, flatten, shuffle. The RNG draw is `pick`, the
in-place `np.random.shuffle` is `shuffle` (the attempted seeding on line 490
assigns to `np.random.seed` instead of calling it, so the permutation stays
arbitrary). -/
def fill_up_equally (pick : Nat → Nat → Nat)
    (shuffle : List (List Char) → List (List Char))
    (X : List (List Char)) : Except FillErr (List (List Char)) :=
  Except.map (fun ps => shuffle ps.flatten) (padAllFrom pick (maxAmount X) 0 (bucketsOf X))

theorem mem_le_foldr_max (l : List Nat) (a : Nat) (h : a ∈ l) : a ≤ l.foldr max 0 := by
  induction l with
  | nil => cases h
  | cons b rest ih =>
    rcases List.mem_cons.mp h with rfl | h2
    · exact Nat.le_max_left _ _
    · exact Nat.le_trans (ih h2) (Nat.le_max_right _ _)

theorem stratum_length_le (X : List (List Char)) (r : Nat) (hr : r < 8) :
    (stratum X (r : Int)).length ≤ maxAmount X := by
  apply mem_le_foldr_max
  have h1 : stratum X (r : Int) ∈ bucketsOf X := by
    unfold bucketsOf
    exact List.mem_map.mpr ⟨r, List.mem_range.mpr hr, rfl⟩
  exact List.mem_map.mpr ⟨_, h1, rfl⟩

theorem padStratum_ok (pick : Nat → Nat) (b t : List (List Char)) (d : Nat)
    (h : padStratum pick b d = .ok t) :
    t.length = b.length + d ∧ (∀ y ∈ t, y ∈ b) ∧ (∀ y ∈ b, y ∈ t) := by
  unfold padStratum at h
  by_cases hd : d = 0
  · rw [if_pos hd] at h
    injection h with h
    subst h hd
    exact ⟨rfl, fun y hy => hy, fun y hy => hy⟩
  · rw [if_neg hd] at h
    by_cases hb : b.length = 0
    · rw [if_pos hb] at h; cases h
    · rw [if_neg hb] at h
      injection h with h
      subst h
      refine ⟨by simp, ?_, fun y hy => List.mem_append_left _ hy⟩
      intro y hy
      rcases List.mem_append.mp hy with h1 | h2
      · exact h1
      · rcases List.mem_map.mp h2 with ⟨j, _, rfl⟩
        rw [List.getD_eq_getElem _ _ (Nat.mod_lt _ (Nat.pos_of_ne_zero hb))]
        exact List.getElem_mem _

/-- Pairwise facts carried by a successful padding run. -/
theorem padAllFrom_ok (pick : Nat → Nat → Nat) (M : Nat) :
    ∀ (bs ps : List (List (List Char))) (i : Nat),
      padAllFrom pick M i bs = .ok ps →
      List.Forall₂ (fun b p => p.length = b.length + (M - b.length)
        ∧ (∀ y ∈ p, y ∈ b) ∧ (∀ y ∈ b, y ∈ p)) bs ps := by
  intro bs
  induction bs with
  | nil =>
    intro ps i h
    injection h with h
    subst h
    exact List.Forall₂.nil
  | cons b rest ih =>
    intro ps i h
    unfold padAllFrom at h
    cases hp : padStratum (pick i) b (M - b.length) with
    | error e => rw [hp] at h; cases h
    | ok p =>
      cases hps : padAllFrom pick M (i + 1) rest with
      | error e => rw [hp, hps] at h; cases h
      | ok ps' =>
        rw [hp, hps] at h
        injection h with h
        subst h
        exact List.Forall₂.cons (padStratum_ok (pick i) b p (M - b.length) hp) (ih ps' (i + 1) hps)

theorem forall₂_mem_left {α β : Type} {R : α → β → Prop} {l₁ : List α} {l₂ : List β}
    (h : List.Forall₂ R l₁ l₂) (a : α) (ha : a ∈ l₁) : ∃ b ∈ l₂, R a b := by
  induction h with
  | nil => cases ha
  | cons hr _ ih =>
    rcases List.mem_cons.mp ha with rfl | h2
    · exact ⟨_, List.mem_cons_self _ _, hr⟩
    · rcases ih h2 with ⟨b, hb, hrb⟩
      exact ⟨b, List.mem_cons_of_mem _ hb, hrb⟩

theorem forall₂_mem_right {α β : Type} {R : α → β → Prop} {l₁ : List α} {l₂ : List β}
    (h : List.Forall₂ R l₁ l₂) (b : β) (hb : b ∈ l₂) : ∃ a ∈ l₁, R a b := by
  induction h with
  | nil => cases hb
  | cons hr _ ih =>
    rcases List.mem_cons.mp hb with rfl | h2
    · exact ⟨_, List.mem_cons_self _ _, hr⟩
    · rcases ih h2 with ⟨a, ha, hra⟩
      exact ⟨a, List.mem_cons_of_mem _ ha, hra⟩

theorem inStratum_self {r : Int} {x : List Char} (h : stratumField x = some r) :
    inStratum r x = true := by
  unfold inStratum
  rw [h]
  exact beq_self_eq_true _

theorem inStratum_false_of_ne {r r' : Int} {x : List Char}
    (h : inStratum r x = true) (hne : r ≠ r') : inStratum r' x = false := by
  unfold inStratum at h ⊢
  rcases heq : stratumField x with _ | k
  · rw [heq] at h
    exact absurd h Bool.false_ne_true
  · have hk : k = r := by rw [heq] at h; simpa using h
    subst hk
    simp [hne]

/-- Filtering a list by membership in each of a duplicate-free family of strata
that covers it, then flattening, permutes the list. -/
theorem partition_flatten_perm (rs : List Int) :
    ∀ (X : List (List Char)), rs.Nodup →
      (∀ x ∈ X, ∃ r ∈ rs, stratumField x = some r) →
      List.Perm (rs.map (fun r => X.filter (inStratum r))).flatten X := by
  intro X
  induction X with
  | nil =>
    intro _ _
    have : ∀ r ∈ rs, ([] : List (List Char)).filter (inStratum r) = [] := by
      intro r _; rfl
    rw [List.map_congr_left this]
    simp [List.flatten_eq_nil_iff]
  | cons x X' ih =>
    intro hnd hcov
    rcases hcov x (List.mem_cons_self x X') with ⟨r₀, hr₀, hf⟩
    have hcov' : ∀ y ∈ X', ∃ r ∈ rs, stratumField y = some r :=
      fun y hy => hcov y (List.mem_cons_of_mem x hy)
    obtain ⟨s, t, rfl⟩ := List.append_of_mem hr₀
    have hnds := List.nodup_append.mp hnd
    have hr₀s : r₀ ∉ s := fun hin => (hnds.2.2 hin (List.mem_cons_self r₀ t)).elim
    have hr₀t : r₀ ∉ t := (List.nodup_cons.mp hnds.2.1).1
    have hxr₀ : inStratum r₀ x = true := inStratum_self hf
    have hsfilt : ∀ r ∈ s, (x :: X').filter (inStratum r) = X'.filter (inStratum r) := by
      intro r hrs
      have : inStratum r x = false :=
        inStratum_false_of_ne hxr₀ (fun hh => hr₀s (hh ▸ hrs))
      simp [List.filter_cons, this]
    have htfilt : ∀ r ∈ t, (x :: X').filter (inStratum r) = X'.filter (inStratum r) := by
      intro r hrt
      have : inStratum r x = false :=
        inStratum_false_of_ne hxr₀ (fun hh => hr₀t (hh ▸ hrt))
      simp [List.filter_cons, this]
    have hheadfilt : (x :: X').filter (inStratum r₀) = x :: X'.filter (inStratum r₀) := by
      simp [List.filter_cons, hxr₀]
    rw [List.map_append, List.map_cons, List.flatten_append, List.flatten_cons,
      List.map_congr_left hsfilt, List.map_congr_left htfilt, hheadfilt]
    have hshape :
        (s.map (fun r => X'.filter (inStratum r))).flatten ++
          (x :: X'.filter (inStratum r₀)) ++ (t.map (fun r => X'.filter (inStratum r))).flatten
        = (s.map (fun r => X'.filter (inStratum r))).flatten ++
            x :: (X'.filter (inStratum r₀) ++ (t.map (fun r => X'.filter (inStratum r))).flatten) := by
      rw [List.append_assoc]
      rfl
    rw [← List.append_assoc, hshape]
    refine List.Perm.trans List.perm_middle (List.Perm.cons x ?_)
    have hflat : ((s ++ r₀ :: t).map (fun r => X'.filter (inStratum r))).flatten
        = (s.map (fun r => X'.filter (inStratum r))).flatten ++
            (X'.filter (inStratum r₀) ++ (t.map (fun r => X'.filter (inStratum r))).flatten) := by
      rw [List.map_append, List.map_cons, List.flatten_append, List.flatten_cons]
    rw [← hflat]
    exact ih hnd hcov'

/-- Stratum population counts after a successful padding run: for each stratum
`r` of a duplicate-free family, the flattened result holds exactly the original
stratum plus its deficit. -/
theorem padAllFrom_countP (pick : Nat → Nat → Nat) (M : Nat) (X : List (List Char)) :
    ∀ (rs : List Int) (i : Nat) (ps : List (List (List Char))), rs.Nodup →
      padAllFrom pick M i (rs.map (fun r => X.filter (inStratum r))) = .ok ps →
      ∀ r ∈ rs, ps.flatten.countP (inStratum r)
        = (X.filter (inStratum r)).length + (M - (X.filter (inStratum r)).length) := by
  intro rs
  induction rs with
  | nil =>
    intro i ps _ h r hr
    cases hr
  | cons r₀ rs' ih =>
    intro i ps hnd h r hr
    rw [List.map_cons] at h
    unfold padAllFrom at h
    cases hp : padStratum (pick i) (X.filter (inStratum r₀)) (M - (X.filter (inStratum r₀)).length) with
    | error e => rw [hp] at h; cases h
    | ok p =>
      cases hps : padAllFrom pick M (i + 1) (rs'.map (fun r => X.filter (inStratum r))) with
      | error e => rw [hp, hps] at h; cases h
      | ok ps' =>
        rw [hp, hps] at h
        injection h with h
        subst h
        have hpo := padStratum_ok (pick i) _ p _ hp
        have hnd' := (List.nodup_cons.mp hnd).2
        have hr₀rs' := (List.nodup_cons.mp hnd).1
        rw [List.flatten_cons, List.countP_append]
        rcases List.mem_cons.mp hr with rfl | hrin
        · have hcp : p.countP (inStratum r) = p.length := by
            rw [List.countP_eq_length]
            intro y hy
            exact List.of_mem_filter (hpo.2.1 y hy)
          have hcz : ps'.flatten.countP (inStratum r) = 0 := by
            rw [List.countP_eq_zero]
            intro y hy
            rcases List.mem_flatten.mp hy with ⟨p', hp', hyp'⟩
            rcases forall₂_mem_right (padAllFrom_ok pick M _ ps' (i + 1) hps) p' hp'
              with ⟨b', hb', hR⟩
            rcases List.mem_map.mp hb' with ⟨r', hr', rfl⟩
            have hy' : inStratum r' y = true := List.of_mem_filter (hR.2.1 y hyp')
            have : inStratum r y = false :=
              inStratum_false_of_ne hy' (fun hh => hr₀rs' (hh ▸ hr'))
            simp [this]
          rw [hcp, hcz, hpo.1]
          omega
        · have hcp : p.countP (inStratum r) = 0 := by
            rw [List.countP_eq_zero]
            intro y hy
            have hy0 : inStratum r₀ y = true := List.of_mem_filter (hpo.2.1 y hy)
            have : inStratum r y = false :=
              inStratum_false_of_ne hy0 (fun hh => hr₀rs' (hh ▸ hrin))
            simp [this]
          rw [hcp, ih (i + 1) ps' hnd' hps r hrin]
          omega

theorem forall₂_flatten_length (M : Nat) {bs ps : List (List (List Char))}
    (h : List.Forall₂ (fun b p => p.length = b.length + (M - b.length)
      ∧ (∀ y ∈ p, y ∈ b) ∧ (∀ y ∈ b, y ∈ p)) bs ps) :
    (∀ b ∈ bs, b.length ≤ M) → ps.flatten.length = bs.length * M := by
  induction h with
  | nil => intro; simp
  | @cons b p bs' ps' hr _ ih =>
    intro hle
    rw [List.flatten_cons, List.length_append,
      ih (fun b' hb' => hle b' (List.mem_cons_of_mem _ hb')), hr.1, List.length_cons,
      Nat.add_mul, Nat.one_mul]
    have hbM : b.length ≤ M := hle b (List.mem_cons_self _ _)
    omega

theorem flatten_length_le (M : Nat) :
    ∀ (bs : List (List (List Char))), (∀ b ∈ bs, b.length ≤ M) →
      bs.flatten.length ≤ bs.length * M := by
  intro bs
  induction bs with
  | nil => intro; simp
  | cons b bs' ih =>
    intro hle
    rw [List.flatten_cons, List.length_append, List.length_cons, Nat.add_mul, Nat.one_mul]
    have h1 := hle b (List.mem_cons_self _ _)
    have h2 := ih (fun b' hb' => hle b' (List.mem_cons_of_mem _ hb'))
    omega

/-- The stratum indices `r = 0..7` of the `sorted_samples` comprehension. -/
def strataIndices : List Int := (List.range 8).map (fun n : Nat => (n : Int))

theorem strataIndices_nodup : strataIndices.Nodup := by decide

theorem bucketsOf_eq (X : List (List Char)) :
    bucketsOf X = strataIndices.map (fun r => X.filter (inStratum r)) := by
  unfold bucketsOf strataIndices stratum
  rw [List.map_map]
  rfl

theorem bucketsOf_length (X : List (List Char)) : (bucketsOf X).length = 8 := by
  unfold bucketsOf
  rw [List.length_map, List.length_range]

theorem bucket_length_le (X : List (List Char)) :
    ∀ b ∈ bucketsOf X, b.length ≤ maxAmount X := by
  intro b hb
  exact mem_le_foldr_max _ _ (List.mem_map.mpr ⟨b, hb, rfl⟩)

/-- C3: on any file list that the stratum field partitions into the 8 strata,
a successful `fill_up_equally` run balances every stratum to the maximum
original stratum size, never shrinks the list, adds only files already present
in their own stratum while keeping every original file, and returns a
permutation of the concatenation of the padded strata. -/
theorem fill_up_equally_balances
    (pick : Nat → Nat → Nat) (shuffle : List (List Char) → List (List Char))
    (hsh : ∀ l, List.Perm (shuffle l) l)
    (X res : List (List Char))
    (hparse : ∀ x ∈ X, ∃ r : Nat, r < 8 ∧ stratumField x = some (r : Int))
    (hres : fill_up_equally pick shuffle X = .ok res) :
    (∀ r : Nat, r < 8 → (res.filter (inStratum (r : Int))).length = maxAmount X)
    ∧ res.length = 8 * maxAmount X
    ∧ X.length ≤ res.length
    ∧ (∀ x ∈ X, x ∈ res)
    ∧ (∀ y ∈ res, y ∈ X)
    ∧ ∃ padded, padAllFrom pick (maxAmount X) 0 (bucketsOf X) = .ok padded
        ∧ List.Perm res padded.flatten := by
  unfold fill_up_equally at hres
  cases hpad : padAllFrom pick (maxAmount X) 0 (bucketsOf X) with
  | error e => rw [hpad] at hres; cases hres
  | ok padded =>
    rw [hpad] at hres
    injection hres with hres
    have hperm : List.Perm res padded.flatten := hres ▸ hsh padded.flatten
    have hF := padAllFrom_ok pick (maxAmount X) (bucketsOf X) padded 0 hpad
    have hcov : ∀ x ∈ X, ∃ r ∈ strataIndices, stratumField x = some r := by
      intro x hx
      rcases hparse x hx with ⟨r, hr8, hf⟩
      exact ⟨(r : Int), List.mem_map.mpr ⟨r, List.mem_range.mpr hr8, rfl⟩, hf⟩
    have hXperm : List.Perm (strataIndices.map (fun r => X.filter (inStratum r))).flatten X :=
      partition_flatten_perm strataIndices X strataIndices_nodup hcov
    have hreslen : res.length = 8 * maxAmount X := by
      rw [hperm.length_eq,
        forall₂_flatten_length (maxAmount X) hF (bucket_length_le X), bucketsOf_length]
    refine ⟨?_, hreslen, ?_, ?_, ?_, padded, rfl, hperm⟩
    · intro r hr8
      rw [← List.countP_eq_length_filter, hperm.countP_eq]
      have := padAllFrom_countP pick (maxAmount X) X strataIndices 0 padded
        strataIndices_nodup (by rw [← bucketsOf_eq]; exact hpad) (r : Int)
        (List.mem_map.mpr ⟨r, List.mem_range.mpr hr8, rfl⟩)
      rw [this]
      have hle : (X.filter (inStratum (r : Int))).length ≤ maxAmount X :=
        stratum_length_le X r hr8
      omega
    · rw [hreslen, ← hXperm.length_eq]
      have h1 := flatten_length_le (maxAmount X)
        (strataIndices.map (fun r => X.filter (inStratum r)))
        (by rw [← bucketsOf_eq]; exact bucket_length_le X)
      rw [show (strataIndices.map (fun r => X.filter (inStratum r))).length = 8 from by
        rw [← bucketsOf_eq]; exact bucketsOf_length X] at h1
      omega
    · intro x hx
      rcases hparse x hx with ⟨r, hr8, hf⟩
      have hxb : x ∈ stratum X (r : Int) :=
        List.mem_filter.mpr ⟨hx, inStratum_self hf⟩
      have hbmem : stratum X (r : Int) ∈ bucketsOf X := by
        unfold bucketsOf
        exact List.mem_map.mpr ⟨r, List.mem_range.mpr hr8, rfl⟩
      rcases forall₂_mem_left hF _ hbmem with ⟨p, hp, hR⟩
      exact hperm.mem_iff.mpr (List.mem_flatten_of_mem hp (hR.2.2 x hxb))
    · intro y hy
      rcases List.mem_flatten.mp (hperm.mem_iff.mp hy) with ⟨p, hp, hyp⟩
      rcases forall₂_mem_right hF p hp with ⟨b, hb, hR⟩
      rcases List.mem_map.mp (bucketsOf_eq X ▸ hb) with ⟨r, _, rfl⟩
      exact (List.mem_filter.mp (hR.2.1 y hyp)).1

/-- A padding run over strata one of which is empty fails with `EmptyStratum`
whenever the target size is positive. -/
theorem padAllFrom_error (pick : Nat → Nat → Nat) (M : Nat) (hM : 0 < M) :
    ∀ (bs : List (List (List Char))) (i : Nat), (∃ b ∈ bs, b = []) →
      padAllFrom pick M i bs = .error .EmptyStratum := by
  intro bs
  induction bs with
  | nil =>
    intro i h
    rcases h with ⟨b, hb, _⟩
    cases hb
  | cons b rest ih =>
    intro i h
    by_cases hb : b = []
    · subst hb
      have hps : padStratum (pick i) [] (M - ([] : List (List Char)).length)
          = .error .EmptyStratum := by
        unfold padStratum
        rw [if_neg (by simp; omega),
          if_pos (show ([] : List (List Char)).length = 0 from rfl)]
      unfold padAllFrom
      rw [hps]
    · rcases h with ⟨b', hb', hbe⟩
      have hb'rest : b' ∈ rest := by
        rcases List.mem_cons.mp hb' with rfl | h2
        · exact absurd hbe hb
        · exact h2
      have hrec := ih (i + 1) ⟨b', hb'rest, hbe⟩
      unfold padAllFrom
      rw [hrec]
      cases hps : padStratum (pick i) b (M - b.length) with
      | error e => cases e; rfl
      | ok p => rfl

/-- C6: when some stratum is empty while another is non-empty (all stratum
fields parsing), `fill_up_equally` fails with `EmptyStratum` instead of
silently skipping the empty stratum. -/
theorem fill_up_equally_empty_stratum
    (pick : Nat → Nat → Nat) (shuffle : List (List Char) → List (List Char))
    (X : List (List Char))
    (hparse : ∀ x ∈ X, ∃ k : Int, stratumField x = some k)
    (hempty : ∃ r : Nat, r < 8 ∧ stratum X (r : Int) = [])
    (hnonempty : ∃ r : Nat, r < 8 ∧ stratum X (r : Int) ≠ []) :
    fill_up_equally pick shuffle X = .error .EmptyStratum := by
  rcases hempty with ⟨r, hr8, he⟩
  rcases hnonempty with ⟨r', hr8', hne⟩
  have hM : 0 < maxAmount X := by
    have h1 : 0 < (stratum X (r' : Int)).length := List.length_pos.mpr hne
    exact Nat.lt_of_lt_of_le h1 (stratum_length_le X r' hr8')
  have hbmem : stratum X (r : Int) ∈ bucketsOf X := by
    unfold bucketsOf
    exact List.mem_map.mpr ⟨r, List.mem_range.mpr hr8, rfl⟩
  have herr := padAllFrom_error pick (maxAmount X) hM (bucketsOf X) 0 ⟨_, hbmem, he⟩
  unfold fill_up_equally
  rw [herr]
  rfl

/-- Eight filenames `as0s0s0.png` .. `as7s0s0.png`, one per stratum. -/
def balancedFiles : List (List Char) :=
  [['a', 's', '0', 's', '0', 's', '0', '.', 'p', 'n', 'g'],
   ['a', 's', '1', 's', '0', 's', '0', '.', 'p', 'n', 'g'],
   ['a', 's', '2', 's', '0', 's', '0', '.', 'p', 'n', 'g'],
   ['a', 's', '3', 's', '0', 's', '0', '.', 'p', 'n', 'g'],
   ['a', 's', '4', 's', '0', 's', '0', '.', 'p', 'n', 'g'],
   ['a', 's', '5', 's', '0', 's', '0', '.', 'p', 'n', 'g'],
   ['a', 's', '6', 's', '0', 's', '0', '.', 'p', 'n', 'g'],
   ['a', 's', '7', 's', '0', 's', '0', '.', 'p', 'n', 'g']]

theorem balancedFiles_parse :
    ∀ x ∈ balancedFiles, ∃ r : Nat, r < 8 ∧ stratumField x = some (r : Int) := by
  intro x hx
  simp only [balancedFiles, List.mem_cons, List.not_mem_nil, or_false] at hx
  rcases hx with rfl | rfl | rfl | rfl | rfl | rfl | rfl | rfl
  · exact ⟨0, by decide, by decide⟩
  · exact ⟨1, by decide, by decide⟩
  · exact ⟨2, by decide, by decide⟩
  · exact ⟨3, by decide, by decide⟩
  · exact ⟨4, by decide, by decide⟩
  · exact ⟨5, by decide, by decide⟩
  · exact ⟨6, by decide, by decide⟩
  · exact ⟨7, by decide, by decide⟩

theorem balancedFiles_run :
    fill_up_equally (fun _ _ => 0) id balancedFiles = .ok balancedFiles := rfl

/-- Witness for C3: one file per stratum, constant RNG, identity shuffle. -/
theorem fill_up_equally_balances_witness :
    (∀ l : List (List Char), List.Perm (id l) l) ∧
    (∀ x ∈ balancedFiles, ∃ r : Nat, r < 8 ∧ stratumField x = some (r : Int)) ∧
    fill_up_equally (fun _ _ => 0) id balancedFiles = .ok balancedFiles ∧
    ((∀ r : Nat, r < 8 →
        (balancedFiles.filter (inStratum (r : Int))).length = maxAmount balancedFiles)
      ∧ balancedFiles.length = 8 * maxAmount balancedFiles
      ∧ balancedFiles.length ≤ balancedFiles.length
      ∧ (∀ x ∈ balancedFiles, x ∈ balancedFiles)
      ∧ (∀ y ∈ balancedFiles, y ∈ balancedFiles)
      ∧ ∃ padded, padAllFrom (fun _ _ => 0) (maxAmount balancedFiles) 0
            (bucketsOf balancedFiles) = .ok padded
          ∧ List.Perm balancedFiles padded.flatten) :=
  ⟨fun l => List.Perm.refl l, balancedFiles_parse, balancedFiles_run,
    fill_up_equally_balances (fun _ _ => 0) id (fun l => List.Perm.refl l)
      balancedFiles balancedFiles balancedFiles_parse balancedFiles_run⟩

/-- One file in stratum 0 only, so strata 1..7 are empty. -/
def unbalancedFiles : List (List Char) :=
  [['a', 's', '0', 's', '0', 's', '0', '.', 'p', 'n', 'g']]

theorem unbalancedFiles_parse :
    ∀ x ∈ unbalancedFiles, ∃ k : Int, stratumField x = some k := by
  intro x hx
  simp only [unbalancedFiles, List.mem_cons, List.not_mem_nil, or_false] at hx
  subst hx
  exact ⟨0, by decide⟩

/-- Witness for C6: stratum 1 is empty while stratum 0 is not, and the run
fails with `EmptyStratum`. -/
theorem fill_up_equally_empty_stratum_witness :
    (∀ x ∈ unbalancedFiles, ∃ k : Int, stratumField x = some k) ∧
    (∃ r : Nat, r < 8 ∧ stratum unbalancedFiles (r : Int) = []) ∧
    (∃ r : Nat, r < 8 ∧ stratum unbalancedFiles (r : Int) ≠ []) ∧
    fill_up_equally (fun _ _ => 0) id unbalancedFiles = .error .EmptyStratum :=
  ⟨unbalancedFiles_parse, ⟨1, by decide, by decide⟩, ⟨0, by decide, by decide⟩,
    fill_up_equally_empty_stratum (fun _ _ => 0) id unbalancedFiles
      unbalancedFiles_parse ⟨1, by decide, by decide⟩ ⟨0, by decide, by decide⟩⟩

/-! ## File-list construction (`Model.train`, lines 182-189) -/

/-- Valence field of a filename: `int(x.split('s')[2])`. -/
def valenceField (x : List Char) : Option Int := fieldInt x 2

/-- The filter of both file-list comprehensions (lines 183 and 189): keep `x`
unless `int(x.split('s')[2])/1000 < -1` (Python 3 true division over `ℚ`); an
unparsable field raises in Python and is excluded by hypothesis below. -/
def keepFile (x : List Char) : Bool :=
  match valenceField x with
  | some v => decide (¬ ((v : ℚ) / 1000 < -1))
  | none => false

/-- The comprehension `[path + x for x in listing if not int(x.split('s')[2])/1000 < -1]`
shared by the training list (line 183) and the validation list (line 189). -/
def buildFileList (path : List Char) (listing : List (List Char)) : List (List Char) :=
  (listing.filter keepFile).map (fun x => path ++ x)

/-- The training pipeline (lines 183-184): the valence filter runs before
`fill_up_equally` balances the list. -/
def trainingFileNames (pick : Nat → Nat → Nat)
    (shuffle : List (List Char) → List (List Char))
    (path : List Char) (listing : List (List Char)) : Except FillErr (List (List Char)) :=
  fill_up_equally pick shuffle (buildFileList path listing)

/-- C10: both the training and the validation file list are built by
`buildFileList`, which excludes exactly the directory entries whose encoded
valence field divided by 1000 is smaller than -1 and keeps all others (prefixed
by the directory path); the training list is filtered before balancing
(`trainingFileNames`). -/
theorem file_list_filter (path : List Char) (listing : List (List Char))
    (x : List Char) (hx : x ∈ listing) (v : Int) (hv : valenceField x = some v) :
    (((v : ℚ) / 1000 < -1) → (path ++ x) ∉ buildFileList path listing) ∧
    ((¬ ((v : ℚ) / 1000 < -1)) → (path ++ x) ∈ buildFileList path listing) := by
  constructor
  · intro hlt hmem
    rcases List.mem_map.mp hmem with ⟨y, hy, hye⟩
    have hyx : y = x := List.append_cancel_left hye
    subst hyx
    have hkeep : keepFile y = true := (List.mem_filter.mp hy).2
    unfold keepFile at hkeep
    rw [hv] at hkeep
    simp only [decide_eq_true_eq] at hkeep
    exact hkeep hlt
  · intro hge
    apply List.mem_map.mpr
    refine ⟨x, List.mem_filter.mpr ⟨hx, ?_⟩, rfl⟩
    unfold keepFile
    rw [hv]
    simpa using hge

/-- Listing with one file whose valence field is -1500 (excluded) and one whose
valence field is 500 (kept). -/
def filterListing : List (List Char) :=
  [['a', 's', '0', 's', '-', '1', '5', '0', '0', 's', '0', '.', 'p', 'n', 'g'],
   ['b', 's', '0', 's', '5', '0', '0', 's', '0', '.', 'p', 'n', 'g']]

/-- Witness for C10 at the excluded file of `filterListing`. -/
theorem file_list_filter_witness :
    (['a', 's', '0', 's', '-', '1', '5', '0', '0', 's', '0', '.', 'p', 'n', 'g']
        ∈ filterListing) ∧
    valenceField ['a', 's', '0', 's', '-', '1', '5', '0', '0', 's', '0', '.', 'p', 'n', 'g']
        = some (-1500) ∧
    ((-1500 : Int) : ℚ) / 1000 < -1 ∧
    (['p', '/'] ++ ['a', 's', '0', 's', '-', '1', '5', '0', '0', 's', '0', '.', 'p', 'n', 'g'])
        ∉ buildFileList ['p', '/'] filterListing :=
  ⟨by decide, by decide, by norm_num,
    (file_list_filter ['p', '/'] filterListing _ (by decide) (-1500) (by decide)).1
      (by norm_num)⟩

/-! ## Attribute environment of `Model` (C1, C2) -/

/-- Attributes assigned on `self` in `Model.__init__` (lines 25-163), in
source order. -/
def initAttrs : List String :=
  ["session", "vgg_weights", "input_image", "valence", "arousal", "z_prior",
   "z", "G", "D_z", "D_z_logits", "D_G", "D_G_logits", "D_z_prior",
   "D_z_prior_logits", "D_input", "D_input_logits", "vgg_loss", "EG_loss",
   "D_z_loss_prior", "D_z_loss_z", "E_z_loss", "D_img_loss_input",
   "D_img_loss_G", "G_img_loss", "E_variables", "G_variables", "D_z_variables",
   "D_img_variables", "z_summary", "z_prior_summary", "EG_loss_summary",
   "D_z_loss_z_summary", "D_z_loss_prior_summary", "E_z_loss_summary",
   "D_z_logits_summary", "D_z_prior_logits_summary", "D_img_loss_input_summary",
   "D_img_loss_G_summary", "G_img_loss_summary", "D_G_logits_summary",
   "D_input_logits_summary", "vgg_loss_summary", "saver"]

/-- Attributes assigned in `Model.train` before the `D_z_optimizer`
construction (lines 176-218), in source order: line 193 assigns `loss_EG`,
lines 194 and 195 both assign `loss_Di`, and no line assigns `loss_Dz`. -/
def trainAttrsBeforeDzOptimizer : List String :=
  ["EG_global_step", "validation_files", "loss_EG", "loss_Di", "loss_Di",
   "EG_optimizer"]

/-- Attribute environment at the point where `D_z_optimizer` is constructed
(line 221-227). -/
def attrsBeforeDzOptimizer : List String := initAttrs ++ trainAttrsBeforeDzOptimizer

/-- Remaining attributes assigned in `Model.train` after line 227, so that the
whole module's `self.X = ...` assignments are covered. -/
def attrsAfterDzOptimizer : List String :=
  ["D_z_optimizer", "D_img_optimizer", "EG_learning_rate_summary", "summary",
   "writer"]

/-- Every attribute assigned on `self` anywhere in `model.py`. -/
def allModelAttrs : List String := attrsBeforeDzOptimizer ++ attrsAfterDzOptimizer

/-- Python attribute lookup `self.a` succeeds iff `a` was assigned. -/
def attrDefined (env : List String) (a : String) : Bool := env.contains a

/-- C1 (code bug): the loss the `D_z_optimizer` minimizes, `self.loss_Dz`
(line 225), is not among the attributes assigned before the optimizer is
constructed — the duplicated line 195 re-assigns `loss_Di` instead — so the
lookup raises `AttributeError`; the two operand losses of the claimed sum are
assigned, the sum itself never is. -/
theorem loss_Dz_undefined :
    attrDefined attrsBeforeDzOptimizer "loss_Dz" = false ∧
    attrDefined attrsBeforeDzOptimizer "D_z_loss_z" = true ∧
    attrDefined attrsBeforeDzOptimizer "D_z_loss_prior" = true ∧
    attrDefined allModelAttrs "loss_Dz" = false := by decide

/-- The fetch list of the per-batch joint update `session.run` (lines 317-331),
in source order. -/
def sessionRunFetches : List String :=
  ["EG_optimizer", "D_z_optimizer", "D_img_optimizer", "EG_loss", "E_z_loss",
   "D_z_loss_z", "D_z_loss_prior", "G_img_loss", "D_img_loss_G",
   "D_img_loss_input", "tv_loss", "vgg_loss"]

/-- C2 (code bug): the joint update does fetch all three optimizers in a single
`session.run` call, but the fetched `self.tv_loss` (line 329) is assigned
nowhere in the module, so the batch step raises `AttributeError` instead of
recording the loss scalars. -/
theorem tv_loss_fetch_undefined :
    ("EG_optimizer" ∈ sessionRunFetches ∧ "D_z_optimizer" ∈ sessionRunFetches ∧
      "D_img_optimizer" ∈ sessionRunFetches) ∧
    sessionRunFetches.all (attrDefined allModelAttrs) = false ∧
    attrDefined allModelAttrs "tv_loss" = false := by decide

/-! ## Batch-loop accounting (`Model.train`, lines 257-293 and 210-218) -/

/-- Sample-prefix removal (lines 258-260): `sample_files = file_names[0:size_batch]`
followed by `file_names[0:size_batch] = []`. -/
def removeSamplePrefix (size_batch : Nat) (file_names : List (List Char)) :
    List (List Char) :=
  file_names.drop size_batch

/-- `num_batches = len(file_names) // size_batch` (line 289), computed after the
sample prefix was removed. -/
def numBatches (size_batch : Nat) (file_names : List (List Char)) : Nat :=
  (removeSamplePrefix size_batch file_names).length / size_batch

/-- The epoch/batch loop (lines 290-293) with the per-batch joint update: of
the three optimizers only `EG_optimizer` carries `global_step` (line 216), so
the counter increments once per batch iteration. Returns (batch iterations
executed, final global step). -/
def runTrainingLoop (size_batch num_epochs : Nat) (file_names : List (List Char)) :
    Nat × Nat :=
  (List.range num_epochs).foldl
    (fun acc _ => (List.range (numBatches size_batch file_names)).foldl
      (fun a _ => (a.1 + 1, a.2 + 1)) acc)
    (0, 0)

/-- Four filenames for the 4-file scenario. -/
def fourFiles : List (List Char) :=
  [['a', 's', '0', 's', '0', 's', '0', '.', 'p', 'n', 'g'],
   ['b', 's', '0', 's', '0', 's', '0', '.', 'p', 'n', 'g'],
   ['c', 's', '0', 's', '0', 's', '0', '.', 'p', 'n', 'g'],
   ['d', 's', '0', 's', '0', 's', '0', '.', 'p', 'n', 'g']]

/-- C5 counterexample: with batch size 2 and 1 epoch, a 4-file list drives
exactly 1 batch iteration and a final global step of 1, not 2, because the
batch-size sample prefix is removed before `num_batches` is computed. -/
theorem one_epoch_four_files_counterexample :
    runTrainingLoop 2 1 fourFiles = (1, 1) ∧ runTrainingLoop 2 1 fourFiles ≠ (2, 2) := by
  constructor <;> decide

/-- C5 (amended): for every 4-file list reaching the batch loop, 1 epoch with
batch size 2 executes exactly ⌊(4-2)/2⌋ = 1 batch iteration and raises the
global step to exactly 1. -/
theorem one_epoch_batch_accounting (files : List (List Char)) (h : files.length = 4) :
    runTrainingLoop 2 1 files = (1, 1) := by
  have hnb : numBatches 2 files = 1 := by
    unfold numBatches removeSamplePrefix
    rw [List.length_drop, h]
  unfold runTrainingLoop
  rw [hnb]
  rfl

/-- Witness for the amended C5 at `fourFiles`. -/
theorem one_epoch_batch_accounting_witness :
    fourFiles.length = 4 ∧ runTrainingLoop 2 1 fourFiles = (1, 1) :=
  ⟨by decide, one_epoch_batch_accounting fourFiles (by decide)⟩

/-! ## Discriminator weight sharing (`Model.__init__`, lines 74-90) -/

/-- Modelled from the spec: the `subnetworks` module (`discriminator_z`,
`discriminator_img`) is not under `src/`. Per spec section 4.2 a discriminator
is a pure function of a parameter record; its variables live in a named scope
created on the first invocation and retrieved — not recreated — when the call
passes `reuse_variables=True`. -/
structure VarScopes (P : Type) where
  entries : List (String × P)

/-- Variable-scope resolution: without reuse a fresh parameter record is
created (erroring if the scope already exists); with reuse the existing record
is returned (erroring if absent). -/
def getScopeVars {P : Type} (st : VarScopes P) (scope : String) (reuse : Bool)
    (fresh : P) : Option (P × VarScopes P) :=
  match st.entries.lookup scope with
  | some p => if reuse then some (p, st) else none
  | none => if reuse then none else some (fresh, ⟨st.entries ++ [(scope, fresh)]⟩)

/-- The four discriminator invocations of `Model.__init__` in source order:
`discriminator_z(z)` (line 75), `discriminator_img(G)` (line 78),
`discriminator_z(z_prior, reuse_variables=True)` (line 83),
`discriminator_img(input_image, reuse_variables=True)` (line 87). Returns the
parameter records resolved by the four invocations. -/
def buildDiscriminators {P : Type} (freshZ freshI : P) : Option (P × P × P × P) := do
  let (pz1, st1) ← getScopeVars (⟨[]⟩ : VarScopes P) "D_z" false freshZ
  let (pi1, st2) ← getScopeVars st1 "D_img" false freshI
  let (pz2, st3) ← getScopeVars st2 "D_z" true freshZ
  let (pi2, _) ← getScopeVars st3 "D_img" true freshI
  return (pz1, pz2, pi1, pi2)

/-- C8: the two latent-discriminator invocations resolve to one parameter
record and the two image-discriminator invocations to one parameter record, so
any scoring function evaluated along either invocation path yields identical
scores on identical inputs. -/
theorem discriminator_weight_sharing {P Z I S : Type} (freshZ freshI : P)
    (pz1 pz2 pi1 pi2 : P)
    (h : buildDiscriminators freshZ freshI = some (pz1, pz2, pi1, pi2)) :
    pz1 = pz2 ∧ pi1 = pi2 ∧
    (∀ (score : P → Z → S) (z : Z), score pz1 z = score pz2 z) ∧
    (∀ (score : P → I → S) (x : I), score pi1 x = score pi2 x) := by
  have hrun : buildDiscriminators freshZ freshI = some (freshZ, freshZ, freshI, freshI) := rfl
  rw [hrun] at h
  injection h with h
  obtain ⟨h1, h2, h3, h4⟩ : freshZ = pz1 ∧ freshZ = pz2 ∧ freshI = pi1 ∧ freshI = pi2 := by
    simpa [Prod.mk.injEq] using h
  subst h1; subst h2; subst h3; subst h4
  exact ⟨rfl, rfl, fun _ _ => rfl, fun _ _ => rfl⟩

/-- Witness for C8 over `P = Z = I = S = Nat`. -/
theorem discriminator_weight_sharing_witness :
    buildDiscriminators (P := Nat) 1 2 = some (1, 1, 2, 2) ∧
    ((1 : Nat) = 1 ∧ (2 : Nat) = 2 ∧
      (∀ (score : Nat → Nat → Nat) (z : Nat), score 1 z = score 1 z) ∧
      (∀ (score : Nat → Nat → Nat) (x : Nat), score 2 x = score 2 x)) :=
  ⟨rfl, discriminator_weight_sharing (Z := Nat) (I := Nat) (S := Nat) 1 2 1 1 2 2 rfl⟩

/-! ## Validation leaves training state unchanged (`Model.validate`, `Model.test`) -/

/-- Training state: the trainable parameters of the four groups and the global
step counter (the only state the optimizers mutate). -/
structure TrainState (P : Type) where
  params : P
  globalStep : Nat

/-- A fetch passed to `session.run`: evaluating a tensor reads state, fetching
an optimizer op applies its parameter/step update. -/
inductive Fetch (P : Type) where
  | tensor (name : String)
  | optimizerOp (update : TrainState P → TrainState P)

/-- Effect of `session.run(fetches, feed_dict)` on training state: only
optimizer ops mutate it. -/
def runFetches {P : Type} (st : TrainState P) (fetches : List (Fetch P)) :
    TrainState P :=
  fetches.foldl (fun s f => match f with
    | .tensor _ => s
    | .optimizerOp u => u s) st

/-- `Model.test` (lines 459-466) evaluates only the tensors `self.z` and
`self.G`; its remaining work (numpy label grids, image writing) touches no
graph state. -/
def testFetches {P : Type} : List (Fetch P) := [.tensor "z", .tensor "G"]

/-- One conditional-sweep test call. -/
def testStep {P : Type} (st : TrainState P) : TrainState P := runFetches st testFetches

/-- `Model.validate` (lines 430-443): one `test` call per validation file. -/
def validateRun {P : Type} (files : List (List Char)) (st : TrainState P) :
    TrainState P :=
  files.foldl (fun s _ => testStep s) st

/-- C9: a conditional-sweep test call and a full validation pass over any
held-out file list leave the training state — every trainable parameter and
the global step counter — unchanged. -/
theorem validate_preserves_state {P : Type} (st : TrainState P)
    (files : List (List Char)) :
    testStep st = st ∧ validateRun files st = st := by
  have htest : ∀ s : TrainState P, testStep s = s := fun _ => rfl
  refine ⟨htest st, ?_⟩
  unfold validateRun
  induction files with
  | nil => rfl
  | cons f rest ih => rw [List.foldl_cons, htest st]; exact ih

end CAAE
